import Mathlib

/-!
Verification of the cpenv environment-module manager.

This file embeds the data model and operations of the cpenv repository
(`cpenv/api.py` and `cpenv/__main__.py`) in Lean 4 and proves, or refutes,
the specified properties of the resolver, the activator's environment merge,
the active-module registry, the repository registry and the CLI glue.

Components whose source is not part of the embedded surface (the resolver,
the activator and the Module class live in modules that only have callers
here) are modelled from the specification document; every such definition
carries a doc comment starting with "Modelled from the spec:".
-/

namespace Cpenv

/-! ## Resolver data model -/

/-- Modelled from the spec: a version constraint of a Requirement
(exact / range / unconstrained, spec section 3).  Versions are drawn from a
documented total order; here the order is that of natural numbers. -/
inductive Constraint where
  | unconstrained
  | exact (v : Nat)
  | atLeast (v : Nat)
  deriving DecidableEq

/-- Modelled from the spec: a Requirement is a module name plus a version
constraint (spec section 3). -/
structure Requirement where
  name : String
  constraint : Constraint
  deriving DecidableEq

/-- Modelled from the spec: a ModuleSpec is a discoverable module description
with a name, a version, and the ordered list of requirements it declares
(spec section 3).  Attributes not used by any claim are omitted. -/
structure ModuleSpec where
  name : String
  version : Nat
  requires : List Requirement
  deriving DecidableEq

/-- Modelled from the spec: a Repository is a named, ordered store of modules
with a root locator (spec section 3).  Its listing is the field modules. -/
structure Repo where
  name : String
  path : String
  modules : List ModuleSpec
  deriving DecidableEq

/-- Modelled from the spec: whether a version satisfies a constraint. -/
def satisfies (v : Nat) : Constraint → Bool
  | Constraint.unconstrained => true
  | Constraint.exact w => v == w
  | Constraint.atLeast w => w ≤ v

/-- Ordering used by Repo.find: version descending. -/
def versionGe (a b : ModuleSpec) : Prop := b.version ≤ a.version

instance : DecidableRel versionGe := fun a b => Nat.decLe b.version a.version

instance : IsTotal ModuleSpec versionGe :=
  ⟨fun a b => Or.symm (Nat.le_total a.version b.version)⟩

instance : IsTrans ModuleSpec versionGe :=
  ⟨fun _ _ _ h1 h2 => Nat.le_trans h2 h1⟩

/-- Modelled from the spec: Repository.find returns the modules matching a
name and version constraint, sorted by version descending (spec section 4.1). -/
def Repo.find (r : Repo) (name : String) (c : Constraint) : List ModuleSpec :=
  List.insertionSort versionGe
    (r.modules.filter (fun m => m.name == name && satisfies m.version c))

/-- Modelled from the spec: the per-requirement search of the Resolver, spec
section 4.2 step 2: search the repositories in registration order; the first
repository whose find yields any match is authoritative and the best match is
the head of its descending find result; if no repository yields a match the
resolution fails (step 3). -/
def resolveOne : List Repo → Requirement → Except String ModuleSpec
  | [], req => Except.error ("Unable to resolve " ++ req.name)
  | r :: rest, req =>
    match r.find req.name req.constraint with
    | [] => resolveOne rest req
    | best :: _ => Except.ok best

/-- Upper bound on the number of requirements the resolver can ever pop:
the seeded requirements plus one occurrence for each requires entry of each
module stored in the repositories. -/
def totalRequires (repos : List Repo) : Nat :=
  (repos.map (fun r => (r.modules.map (fun m => m.requires.length)).sum)).sum

/-- Modelled from the spec: the Resolver loop of spec section 4.2.  It pops
requirements from the pending list; detects cycles on the active expansion
path (step 4); deduplicates an already-resolved name when the earlier version
satisfies the new constraint and otherwise fails with a conflict (step 5);
resolves a new name via resolveOne, recursively expands its requires first,
and emits the matched spec after its dependencies (steps 4 and 6).  The
first argument is fuel bounding the recursion; resolve supplies enough fuel
for every terminating run. -/
def resolveMany (repos : List Repo) :
    Nat → List String → List ModuleSpec → List Requirement →
    Except String (List ModuleSpec)
  | _, _, st, [] => Except.ok st
  | 0, _, _, _ :: _ => Except.error "maximum resolution depth exceeded"
  | Nat.succ fuel, path, st, req :: rs =>
    if path.contains req.name then
      Except.error ("cycle detected: " ++ req.name)
    else
      match st.find? (fun m => m.name == req.name) with
      | some m =>
        if satisfies m.version req.constraint then
          resolveMany repos fuel path st rs
        else
          Except.error ("conflicting requirement: " ++ req.name)
      | none =>
        match resolveOne repos req with
        | Except.error e => Except.error e
        | Except.ok m =>
          match resolveMany repos fuel (req.name :: path) st m.requires with
          | Except.error e => Except.error e
          | Except.ok st2 => resolveMany repos fuel path (st2 ++ [m]) rs

/-- Modelled from the spec: Resolver.resolve (spec section 4.2), as invoked by
api.resolve (api.py lines 55-59) over the registered repositories. -/
def resolve (repos : List Repo) (reqs : List Requirement) :
    Except String (List ModuleSpec) :=
  resolveMany repos (Nat.succ (totalRequires repos + reqs.length)) [] [] reqs

/-- The resolver output invariant of spec section 3: every entry's declared
requirements are resolved by an entry strictly earlier in the list. -/
def DepOrdered (l : List ModuleSpec) : Prop :=
  ∀ i m1, l.get? i = some m1 → ∀ d ∈ m1.requires,
    ∃ j m2, j < i ∧ l.get? j = some m2 ∧ m2.name = d.name

/-- An unconstrained requirement on a module name. -/
def reqOf (n : String) : Requirement := ⟨n, Constraint.unconstrained⟩

/-- A repository holding a two-module dependency cycle: A requires B and
B requires A. -/
def cycleRepo : Repo :=
  ⟨"cyclic", "/repo", [⟨"A", 1, [reqOf "B"]⟩, ⟨"B", 1, [reqOf "A"]⟩]⟩

/-- A repository holding a single module without dependencies. -/
def simpleRepo : Repo := ⟨"simple", "/repo", [⟨"moduleA", 1, []⟩]⟩

/-- A repository holding two versions of the same module. -/
def twoVersionRepo : Repo :=
  ⟨"dual", "/repo", [⟨"moduleA", 1, []⟩, ⟨"moduleA", 2, []⟩]⟩

/-! ## Ordered string-keyed dictionaries

Python dicts preserve insertion order; updating an existing key keeps its
position, a new key is appended at the end. -/

/-- Lookup in an insertion-ordered dictionary. -/
def dictGet {α : Type} (d : List (String × α)) (k : String) : Option α :=
  (d.find? (fun kv => kv.1 == k)).map (fun kv => kv.2)

/-- Update of an insertion-ordered dictionary: replace in place when the key
is present, append otherwise. -/
def dictSet {α : Type} (d : List (String × α)) (k : String) (v : α) :
    List (String × α) :=
  if d.any (fun kv => kv.1 == k) then
    d.map (fun kv => if kv.1 == k then (k, v) else kv)
  else
    d ++ [(k, v)]

/-! ## Activator environment merge -/

/-- Modelled from the spec: a per-variable environment operation of a module's
environment delta: set, prepend or append, each carrying the string value and,
for prepend and append, the join separator (spec sections 3 and 4.5 step 3). -/
inductive EnvOp where
  | set (v : String)
  | prepend (v : String) (sep : String)
  | append (v : String) (sep : String)
  deriving DecidableEq

/-- Read a variable from the accumulated environment. -/
def envGet (env : List (String × String)) (k : String) : Option String :=
  dictGet env k

/-- Write a variable into the accumulated environment. -/
def envSet (env : List (String × String)) (k : String) (v : String) :
    List (String × String) :=
  dictSet env k v

/-- Modelled from the spec: the value an operation produces from the
accumulated value of its variable: set replaces unconditionally, prepend
places the new value before the accumulated value joined by the separator,
append places it after (spec section 4.5 step 3). -/
def applyOp (cur : Option String) : EnvOp → String
  | EnvOp.set v => v
  | EnvOp.prepend v sep =>
    match cur with
    | none => v
    | some c => v ++ sep ++ c
  | EnvOp.append v sep =>
    match cur with
    | none => v
    | some c => c ++ sep ++ v

/-- Apply one variable's delta to the accumulated environment. -/
def applyDelta (env : List (String × String)) (d : String × EnvOp) :
    List (String × String) :=
  envSet env d.1 (applyOp (envGet env d.1) d.2)

/-- Modelled from the spec: apply one module's environment delta, its
operations in declared order. -/
def applyModuleEnv (env : List (String × String))
    (deltas : List (String × EnvOp)) : List (String × String) :=
  deltas.foldl applyDelta env

/-- Modelled from the spec: the Activator's environment merge processes the
modules strictly in the given dependency-first order (spec section 4.5
step 3). -/
def mergeModuleEnvs (env : List (String × String))
    (mods : List (List (String × EnvOp))) : List (String × String) :=
  mods.foldl applyModuleEnv env

/-! ## Modules and the active-module registry -/

/-- Modelled from the spec: a materialized Module with its local root path,
name and version (spec section 3; the Module class itself is outside the
embedded surface). -/
structure Module where
  path : String
  name : String
  version : String
  deriving DecidableEq

/-- Modelled from the spec: real_name is the name-version string used as the
unique activation and display key (spec glossary). -/
def Module.real_name (m : Module) : String := m.name ++ "-" ++ m.version

/-- Lexicographic comparison of character lists by code point, the order
Python uses to sort strings. -/
def charsLe : List Char → List Char → Bool
  | [], _ => true
  | _ :: _, [] => false
  | a :: as, b :: bs =>
    if a.toNat < b.toNat then true
    else if b.toNat < a.toNat then false
    else charsLe as bs

/-- Lexicographic string comparison by code point. -/
def strLe (a b : String) : Bool := charsLe a.data b.data

/-- The key order used to sort the active-module registry:
ascending real_name (api.py line 265). -/
def realNameLe (a b : Module) : Prop := strLe a.real_name b.real_name = true

instance : DecidableRel realNameLe :=
  fun a b => decidable_of_iff (strLe a.real_name b.real_name = true) Iff.rfl

/-- The path separator joining entries of CPENV_ACTIVE_MODULES
(os.pathsep; the colon of POSIX platforms). -/
def os_pathsep : String := ":"

/-- The serialization written to CPENV_ACTIVE_MODULES: the real_names of the
registry joined by the path separator (api.py lines 267 and 281). -/
def serializeActive (ms : List Module) : String :=
  String.intercalate os_pathsep (ms.map Module.real_name)

/-- The in-process active-module registry together with the external
CPENV_ACTIVE_MODULES variable (none when unset). -/
structure ActiveState where
  modules : List Module
  envVar : Option String
  deriving DecidableEq

/-- The initial state: _active_modules is the empty list (api.py line 52) and
the variable is unset. -/
def initActive : ActiveState := ⟨[], none⟩

/-- add_active_module (api.py lines 255-268): append the module unless an
equal one is already present (membership is by real_name, the registry key),
sort the registry ascending by real_name, and rewrite CPENV_ACTIVE_MODULES
with the serialization of the sorted registry. -/
def add_active_module (st : ActiveState) (m : Module) : ActiveState :=
  let ms :=
    if st.modules.any (fun x => x.real_name == m.real_name) then st.modules
    else st.modules ++ [m]
  let sorted := List.insertionSort realNameLe ms
  ⟨sorted, some (serializeActive sorted)⟩

/-- remove_active_module (api.py lines 271-282): remove the first entry equal
to the module if present (membership is by real_name) and rewrite
CPENV_ACTIVE_MODULES with the serialization of the remaining registry. -/
def remove_active_module (st : ActiveState) (m : Module) : ActiveState :=
  let ms := st.modules.eraseP (fun x => x.real_name == m.real_name)
  ⟨ms, some (serializeActive ms)⟩

/-- A call to the active-module registry API. -/
inductive ActiveOp where
  | add (m : Module)
  | remove (m : Module)
  deriving DecidableEq

/-- Run one registry call. -/
def stepActive (st : ActiveState) : ActiveOp → ActiveState
  | ActiveOp.add m => add_active_module st m
  | ActiveOp.remove m => remove_active_module st m

/-- Run a sequence of registry calls. -/
def applyActiveOps (st : ActiveState) (ops : List ActiveOp) : ActiveState :=
  ops.foldl stepActive st

/-- A concrete module with real_name a-1.0. -/
def modA : Module := ⟨"/modules/a-1.0", "a", "1.0"⟩

/-- A concrete module with real_name b-1.0. -/
def modB : Module := ⟨"/modules/b-1.0", "b", "1.0"⟩

instance : IsTotal Module realNameLe := by
  constructor
  intro a b
  have h : ∀ x y : List Char, charsLe x y = true ∨ charsLe y x = true := by
    intro x
    induction x with
    | nil => intro y; left; rfl
    | cons a as ih =>
      intro y
      cases y with
      | nil => right; rfl
      | cons b bs =>
        by_cases h1 : a.toNat < b.toNat
        · left; simp [charsLe, h1]
        · by_cases h2 : b.toNat < a.toNat
          · right; simp [charsLe, h1, h2]
          · rcases ih bs with h3 | h3
            · left; simp [charsLe, h1, h2, h3]
            · right
              have hab : b.toNat = a.toNat :=
                Nat.le_antisymm (Nat.not_lt.mp h1) (Nat.not_lt.mp h2)
              simp [charsLe, h1, h2, hab, h3]
  exact (h a.real_name.data b.real_name.data).imp id id

instance : IsTrans Module realNameLe := by
  constructor
  intro a b c
  have h : ∀ x y z : List Char,
      charsLe x y = true → charsLe y z = true → charsLe x z = true := by
    intro x
    induction x with
    | nil => intro y z _ _; rfl
    | cons a as ih =>
      intro y z hxy hyz
      cases y with
      | nil => simp [charsLe] at hxy
      | cons b bs =>
        cases z with
        | nil => simp [charsLe] at hyz
        | cons c cs =>
          simp only [charsLe] at hxy hyz ⊢
          by_cases h1 : a.toNat < b.toNat
          · by_cases h2 : b.toNat < c.toNat
            · have h3 : a.toNat < c.toNat := Nat.lt_trans h1 h2
              simp [h3]
            · by_cases h2b : c.toNat < b.toNat
              · simp [h2, h2b] at hyz
              · have hbc : b.toNat = c.toNat :=
                  Nat.le_antisymm (Nat.not_lt.mp h2b) (Nat.not_lt.mp h2)
                have h3 : a.toNat < c.toNat := hbc ▸ h1
                simp [h3]
          · by_cases h1b : b.toNat < a.toNat
            · simp [h1, h1b] at hxy
            · have hab : a.toNat = b.toNat :=
                Nat.le_antisymm (Nat.not_lt.mp h1b) (Nat.not_lt.mp h1)
              simp [h1, h1b] at hxy
              by_cases h2 : b.toNat < c.toNat
              · have h3 : a.toNat < c.toNat := hab ▸ h2
                simp [h3]
              · by_cases h2b : c.toNat < b.toNat
                · simp [h2, h2b] at hyz
                · have hbc : b.toNat = c.toNat :=
                    Nat.le_antisymm (Nat.not_lt.mp h2b) (Nat.not_lt.mp h2)
                  simp [h2, h2b] at hyz
                  have hac : ¬ a.toNat < c.toNat := by omega
                  have hca : ¬ c.toNat < a.toNat := by omega
                  simp [hac, hca]
                  exact ih bs cs hxy hyz
  intro hab hbc
  exact h a.real_name.data b.real_name.data c.real_name.data hab hbc

/-! ## The repository registry and module-level api state -/

/-- A value stored at a top-level key of the _registry dict: either the
ordered table of registered repos kept at the key called repos
(api.py lines 49-51), or a bare Repo (what update_repo writes,
api.py line 457). -/
inductive RegEntry where
  | table (rs : List (String × Repo))
  | single (r : Repo)
  deriving DecidableEq

/-- The process-wide api state: the _registry dict and os.environ. -/
structure ApiState where
  registry : List (String × RegEntry)
  env : List (String × String)
  deriving DecidableEq

/-- Modelled from the spec: path-string normalization is explicitly out of
scope (spec section 1, external collaborators), so utils.normpath is the
identity here. -/
def normpath (p : String) : String := p

/-- Joining a directory and a child name, as utils.normpath(a, b) does. -/
def joinPath (a b : String) : String := a ++ "/" ++ b

/-- repos.LocalRepo: a filesystem repository with a name and a root path.
Its on-disk listing is outside the embedded surface and is modelled as the
empty listing; no claim depends on it. -/
def LocalRepo (name path : String) : Repo := ⟨name, path, []⟩

/-- get_repos (api.py lines 494-497): the values of the repos table of the
registry, in registration order.  In Python a non-table value at the key
would raise; that key always holds the table in every state reachable from
the initial registry through the embedded operations. -/
def get_repos (st : ApiState) : List Repo :=
  match dictGet st.registry "repos" with
  | some (RegEntry.table rs) => rs.map (fun kv => kv.2)
  | _ => []

/-- get_repo (api.py lines 481-491) on a string name: the first registered
repo all of whose queried attributes match; with the sole query key name this
is the first repo with that name, and None when there is none. -/
def get_repo (st : ApiState) (name : String) : Option Repo :=
  (get_repos st).find? (fun r => r.name == name)

/-- add_repo (api.py lines 460-472), append form: register a repo under its
name unless the name is already registered. -/
def add_repo (st : ApiState) (r : Repo) : ApiState :=
  match dictGet st.registry "repos" with
  | some (RegEntry.table rs) =>
    if rs.any (fun kv => kv.1 == r.name) then st
    else
      { st with
        registry :=
          dictSet st.registry "repos" (RegEntry.table (rs ++ [(r.name, r)])) }
  | _ => st

/-- update_repo (api.py lines 454-457): the code updates the top-level
_registry dict itself with the pair from the repo's name to the repo, not the
table stored under the key repos. -/
def update_repo (st : ApiState) (r : Repo) : ApiState :=
  { st with registry := dictSet st.registry r.name (RegEntry.single r) }

/-- Default home path when CPENV_HOME is unset (appdirs lookup is out of
scope; the concrete value is irrelevant to every claim). -/
def home_default : String := "/usr/local/share/cpenv"

/-- get_home_path (api.py lines 308-319). -/
def get_home_path (st : ApiState) : String :=
  normpath ((dictGet st.env "CPENV_HOME").getD home_default)

/-- get_home_modules_path (api.py lines 322-331). -/
def get_home_modules_path (st : ApiState) : String :=
  joinPath (get_home_path st) "modules"

/-- set_home_path (api.py lines 285-296): normalize the path, write it to
CPENV_HOME, then hand a LocalRepo named home rooted at the new modules
subdirectory to update_repo.  _init_home_path only touches the filesystem and
has no effect on the registry or the environment. -/
def set_home_path (st : ApiState) (p : String) : ApiState :=
  let home := normpath p
  let st1 := { st with env := dictSet st.env "CPENV_HOME" home }
  update_repo st1 (LocalRepo "home" (get_home_modules_path st1))

/-- The destination repository api.localize hands to the Localizer
(api.py lines 62-65): the result of get_repo on the to_repo argument. -/
def localize_to_repo (st : ApiState) (to_repo : String) : Option Repo :=
  get_repo st to_repo

/-- The destination repository api.publish hands to upload
(api.py lines 215-218): the result of get_repo on the to_repo argument. -/
def publish_to_repo (st : ApiState) (to_repo : String) : Option Repo :=
  get_repo st to_repo

/-- A state as _init leaves it when the home repo was registered while
CPENV_HOME pointed at the old location. -/
def initializedState : ApiState :=
  ⟨[("repos", RegEntry.table [("home", LocalRepo "home" "/old/cpenv/modules")])],
   [("CPENV_HOME", "/old/cpenv")]⟩

/-- A registry state holding two repositories, home first. -/
def twoRepoState : ApiState :=
  ⟨[("repos", RegEntry.table
      [("home", LocalRepo "home" "/home/modules"),
       ("user", LocalRepo "user" "/user/modules")])],
   []⟩

/-! ## CLI glue -/

/-- The interactive input to prompt_for_repo, after the int() parse attempt:
an empty reply, a parsed integer, or a reply that is not an integer. -/
inductive PromptInput where
  | empty
  | num (n : Int)
  | nonNumeric
  deriving DecidableEq

/-- The observable outcome of prompt_for_repo: either a chosen repository is
returned to the caller, or the process terminates with exit status 1 (via
sys.exit(1), or via an uncaught ValueError, IndexError or NameError, all of
which end the interpreter with status 1). -/
inductive PromptOutcome where
  | chosen (r : Repo)
  | exitOne
  deriving DecidableEq

/-- The index bound to the variable default by the enumeration loop of
prompt_for_repo (__main__.py lines 412-423): the loop overwrites it at every
repo whose name equals the default name, so the last match wins; none when no
repo matches and the variable stays unbound. -/
def lastIdxNamed (repos : List Repo) (dname : String) : Option Nat :=
  (repos.foldl
    (fun (acc : Option Nat × Nat) r =>
      (if r.name == dname then some acc.2 else acc.1, acc.2 + 1))
    (none, 0)).1

/-- Python sequence indexing with an int: nonnegative indices from the front,
indices in [-len, -1] from the back, anything else raises IndexError. -/
def pyIndex (l : List Repo) (n : Int) : Option Repo :=
  if 0 ≤ n then l.get? n.toNat
  else if 0 ≤ n + l.length then l.get? (n + l.length).toNat
  else none

/-- prompt_for_repo (__main__.py lines 409-439): an empty reply selects the
default; a numeric reply is rejected with exit status 1 only when it exceeds
len(repos) - 1, and is otherwise used directly as a Python index into repos;
a non-numeric reply raises ValueError inside int(). -/
def prompt_for_repo (repos : List Repo) (default_repo_name : String)
    (input : PromptInput) : PromptOutcome :=
  match lastIdxNamed repos default_repo_name with
  | none => PromptOutcome.exitOne
  | some d =>
    match input with
    | PromptInput.empty =>
      match pyIndex repos (Int.ofNat d) with
      | some r => PromptOutcome.chosen r
      | none => PromptOutcome.exitOne
    | PromptInput.nonNumeric => PromptOutcome.exitOne
    | PromptInput.num n =>
      if (repos.length : Int) - 1 < n then PromptOutcome.exitOne
      else
        match pyIndex repos n with
        | some r => PromptOutcome.chosen r
        | none => PromptOutcome.exitOne

/-- The exit status of the activate command (__main__.py lines 45-64) as a
function of the resolution outcome: ResolveError is caught and the command
exits with status 1; on success the command finishes normally, which is exit
status 0 (the success status is modelled from the spec, section 6: exit code
0 on success; the subshell launch is out of scope). -/
def activate_exit_code (resolution : Except String (List ModuleSpec)) : Nat :=
  match resolution with
  | Except.error _ => 1
  | Except.ok _ => 0

/-- The outcome of the deletion confirmation of the remove command. -/
inductive ConfirmOutcome where
  | proceed
  | exitOne
  deriving DecidableEq

/-- ASCII lowercasing of one character, as str.lower acts on the replies the
claims concern. -/
def charLower (c : Char) : Char :=
  if 65 ≤ c.toNat ∧ c.toNat ≤ 90 then Char.ofNat (c.toNat + 32) else c

/-- ASCII lowercasing of a string. -/
def strLower (s : String) : String := ⟨s.data.map charLower⟩

/-- The confirmation check of Remove.run (__main__.py lines 364-367): any
reply whose lowercase form is not one of y, yes, yup aborts with exit
status 1. -/
def remove_confirm (choice : String) : ConfirmOutcome :=
  if strLower choice == "y" || strLower choice == "yes" ||
      strLower choice == "yup" then
    ConfirmOutcome.proceed
  else ConfirmOutcome.exitOne

/-- A first repository for the prompt examples. -/
def repoHome : Repo := ⟨"home", "/home/modules", []⟩

/-- A second repository for the prompt examples. -/
def repoUser : Repo := ⟨"user", "/user/modules", []⟩

/-! ## create -/

/-- A value of the module.yml metadata document.  The document codec is out
of scope (spec section 1); the written file is modelled as the ordered list
of fields handed to the dump with sort_keys false, which preserves exactly
that order. -/
inductive YamlValue where
  | str (v : String)
  | items (v : List String)
  | mapping (v : List (String × String))
  deriving DecidableEq

/-- An observable state change performed by create. -/
inductive CreateEvent where
  | hook (name : String)
  | madeDir (p : String)
  | wroteFile (p : String)
  deriving DecidableEq

/-- The filesystem as create observes and changes it: the set of existing
directories and the written documents. -/
structure CreateFS where
  dirs : List String
  files : List (String × List (String × YamlValue))
  deriving DecidableEq

/-- The world state threaded through create: the filesystem plus the ordered
log of state-changing events (hook runs, directory creations, file writes). -/
structure CreateState where
  fs : CreateFS
  events : List CreateEvent
  deriving DecidableEq

/-- Run a global hook (hooks.run_global_hook); only the fact and order of the
invocation is observable here. -/
def runHook (st : CreateState) (name : String) : CreateState :=
  { st with events := st.events ++ [CreateEvent.hook name] }

/-- utils.ensure_path_exists: create the directory when absent. -/
def ensureDir (st : CreateState) (p : String) : CreateState :=
  if st.fs.dirs.contains p then st
  else
    { st with
      fs := { st.fs with dirs := st.fs.dirs ++ [p] },
      events := st.events ++ [CreateEvent.madeDir p] }

/-- Write a document to a file path. -/
def writeFile (st : CreateState) (p : String)
    (doc : List (String × YamlValue)) : CreateState :=
  { st with
    fs := { st.fs with files := dictSet st.fs.files p doc },
    events := st.events ++ [CreateEvent.wroteFile p] }

/-- create (api.py lines 109-165): build the ordered config, fail with
OSError when the destination directory already exists (before any hook runs
or filesystem change), and otherwise run pre_create, create the module folder
and its hooks subdirectory, write module.yml, and run post_create.  Raising
is modelled by returning the unchanged state with the error. -/
def create (st : CreateState) (whereArg nameArg versionArg description
    author email : String) (requiresArg : List String)
    (environment : List (String × String)) :
    CreateState × Except String Module :=
  let config : List (String × YamlValue) :=
    [("name", YamlValue.str nameArg),
     ("version", YamlValue.str versionArg),
     ("description", YamlValue.str description),
     ("author", YamlValue.str author),
     ("email", YamlValue.str email),
     ("requires", YamlValue.items requiresArg),
     ("environment", YamlValue.mapping environment)]
  let w := normpath whereArg
  if st.fs.dirs.contains w then
    (st, Except.error ("Module already exists at " ++ w))
  else
    let m : Module := ⟨w, nameArg, versionArg⟩
    let st1 := runHook st "pre_create"
    let st2 := ensureDir st1 w
    let st3 := ensureDir st2 (joinPath w "hooks")
    let st4 := writeFile st3 (joinPath w "module.yml") config
    let st5 := runHook st4 "post_create"
    (st5, Except.ok m)

/-- The expected order of the metadata document's fields. -/
def configFieldOrder : List String :=
  ["name", "version", "description", "author", "email", "requires",
   "environment"]

/-- An empty world state for create. -/
def emptyCreateState : CreateState := ⟨⟨[], []⟩, []⟩

/-- A world state in which the directory /modules/a already exists. -/
def occupiedCreateState : CreateState := ⟨⟨["/modules/a"], []⟩, []⟩

/-! ## Lemmas about the active-module registry -/

theorem add_active_module_perm (st : ActiveState) (m : Module) :
    (add_active_module st m).modules.Perm
      (if st.modules.any (fun x => x.real_name == m.real_name) = true
       then st.modules else st.modules ++ [m]) := by
  by_cases h : st.modules.any (fun x => x.real_name == m.real_name) = true
  · simp only [add_active_module, h, if_true]
    exact List.perm_insertionSort realNameLe _
  · simp only [add_active_module, h, if_false, Bool.false_eq_true]
    exact List.perm_insertionSort realNameLe _

theorem countP_real_name_eq_one (l : List Module) (k : String)
    (hnd : (l.map Module.real_name).Nodup) (hmem : k ∈ l.map Module.real_name) :
    List.countP (fun x => x.real_name == k) l = 1 := by
  induction l with
  | nil => simp at hmem
  | cons a l ih =>
    simp only [List.map_cons, List.nodup_cons] at hnd
    simp only [List.map_cons, List.mem_cons] at hmem
    rw [List.countP_cons]
    rcases hmem with h | h
    · have hpos : (a.real_name == k) = true := by simp [h]
      have hz : List.countP (fun x => x.real_name == k) l = 0 := by
        rw [List.countP_eq_zero]
        intro x hx
        simp only [beq_iff_eq]
        intro hxk
        have hxa : x.real_name = a.real_name := hxk.trans h
        exact hnd.1 (hxa ▸ List.mem_map_of_mem Module.real_name hx)
      simp [hz, hpos]
    · have hne : (a.real_name == k) = false := by
        simp only [beq_eq_false_iff_ne, ne_eq]
        intro hak
        exact hnd.1 (hak ▸ h)
      simp [hne, ih hnd.2 h]

theorem add_active_module_nodup (st : ActiveState) (m : Module)
    (h2 : (st.modules.map Module.real_name).Nodup) :
    ((add_active_module st m).modules.map Module.real_name).Nodup := by
  have hperm := (add_active_module_perm st m).map Module.real_name
  rw [hperm.nodup_iff]
  by_cases h : st.modules.any (fun x => x.real_name == m.real_name) = true
  · simpa [h] using h2
  · have hfresh : m.real_name ∉ st.modules.map Module.real_name := by
      intro hmm
      rcases List.mem_map.mp hmm with ⟨x, hx, hxe⟩
      have hx3 : (x.real_name == m.real_name) = true := by simp [hxe]
      exact h (List.any_eq_true.mpr ⟨x, hx, hx3⟩)
    simp only [h, if_false, Bool.false_eq_true, List.map_append, List.map_cons,
      List.map_nil]
    rw [List.nodup_append]
    exact ⟨h2, List.nodup_singleton _, by
      intro x hx hx2
      simp only [List.mem_cons, List.not_mem_nil, or_false] at hx2
      exact hfresh (hx2 ▸ hx)⟩

theorem stepActive_sorted_nodup (st : ActiveState)
    (h1 : List.Sorted realNameLe st.modules)
    (h2 : (st.modules.map Module.real_name).Nodup) (op : ActiveOp) :
    List.Sorted realNameLe (stepActive st op).modules ∧
    ((stepActive st op).modules.map Module.real_name).Nodup := by
  cases op with
  | add m =>
    exact ⟨List.sorted_insertionSort realNameLe _, add_active_module_nodup st m h2⟩
  | remove m =>
    constructor
    · exact List.Pairwise.sublist (List.eraseP_sublist _) h1
    · exact List.Nodup.sublist ((List.eraseP_sublist _).map Module.real_name) h2

theorem stepActive_envVar (st : ActiveState) (op : ActiveOp) :
    (stepActive st op).envVar
      = some (serializeActive (stepActive st op).modules) := by
  cases op <;> rfl

theorem applyActiveOps_inv (ops : List ActiveOp) :
    ∀ st : ActiveState, List.Sorted realNameLe st.modules →
      (st.modules.map Module.real_name).Nodup →
      List.Sorted realNameLe (applyActiveOps st ops).modules ∧
      ((applyActiveOps st ops).modules.map Module.real_name).Nodup := by
  induction ops with
  | nil => intro st h1 h2; exact ⟨h1, h2⟩
  | cons op ops ih =>
    intro st h1 h2
    have hstep := stepActive_sorted_nodup st h1 h2 op
    exact ih (stepActive st op) hstep.1 hstep.2

theorem initActive_inv :
    List.Sorted realNameLe initActive.modules ∧
    (initActive.modules.map Module.real_name).Nodup := by
  constructor <;> simp [initActive]

theorem add_active_module_count (st : ActiveState) (m : Module)
    (h2 : (st.modules.map Module.real_name).Nodup) :
    ((add_active_module st m).modules.filter
        (fun x => x.real_name == m.real_name)).length = 1 := by
  rw [← List.countP_eq_length_filter]
  rw [(add_active_module_perm st m).countP_eq]
  by_cases h : st.modules.any (fun x => x.real_name == m.real_name) = true
  · simp only [h, if_true]
    rcases List.any_eq_true.mp h with ⟨x, hx, hxe⟩
    have hxk : x.real_name = m.real_name := by simpa using hxe
    exact countP_real_name_eq_one st.modules m.real_name h2
      (hxk ▸ List.mem_map_of_mem Module.real_name hx)
  · simp only [h, if_false, Bool.false_eq_true]
    have hfresh : m.real_name ∉ st.modules.map Module.real_name := by
      intro hmm
      rcases List.mem_map.mp hmm with ⟨x, hx, hxe⟩
      exact h (List.any_eq_true.mpr ⟨x, hx, by simp [hxe]⟩)
    apply countP_real_name_eq_one
    · simp only [List.map_append, List.map_cons, List.map_nil]
      rw [List.nodup_append]
      exact ⟨h2, List.nodup_singleton _, by
        intro x hx hx2
        simp only [List.mem_cons, List.not_mem_nil, or_false] at hx2
        exact hfresh (hx2 ▸ hx)⟩
    · simp

/-! ## Claim theorems: the active-module registry -/

/-- C4: activating the same module twice leaves exactly one entry for its
real_name in the active-module registry (and hence no duplicate real_name in
the serialized active-modules variable), and after every sequence of
add_active_module and remove_active_module calls the registry holds no two
entries with the same real_name. -/
theorem c4_registry_idempotent : ∀ (ops : List ActiveOp) (m : Module),
    (((applyActiveOps initActive (ops ++ [ActiveOp.add m, ActiveOp.add m])).modules.filter
        (fun x => x.real_name == m.real_name)).length = 1)
    ∧ ((applyActiveOps initActive ops).modules.map Module.real_name).Nodup := by
  intro ops m
  have hinv := applyActiveOps_inv ops initActive initActive_inv.1 initActive_inv.2
  constructor
  · have hsplit : applyActiveOps initActive (ops ++ [ActiveOp.add m, ActiveOp.add m])
        = add_active_module
            (add_active_module (applyActiveOps initActive ops) m) m := by
      simp [applyActiveOps, List.foldl_append, stepActive]
    rw [hsplit]
    exact add_active_module_count _ m
      (add_active_module_nodup (applyActiveOps initActive ops) m hinv.2)
  · exact hinv.2

/-- C5 counterexample: after activating b-1.0 and then a-1.0, the registry
and the serialized CPENV_ACTIVE_MODULES list the real_names in ascending
order a-1.0, b-1.0, not in activation order b-1.0, a-1.0 — the variable does
not preserve activation order as the claim states. -/
theorem c5_counterexample :
    (applyActiveOps initActive [ActiveOp.add modB, ActiveOp.add modA]).modules.map
        Module.real_name = ["a-1.0", "b-1.0"]
    ∧ (applyActiveOps initActive [ActiveOp.add modB, ActiveOp.add modA]).envVar
        = some "a-1.0:b-1.0"
    ∧ ¬ ((applyActiveOps initActive [ActiveOp.add modB, ActiveOp.add modA]).modules.map
        Module.real_name = ["b-1.0", "a-1.0"]) := by
  refine ⟨by decide, by decide, by decide⟩

/-- C5 as amended: after every nonempty sequence of activations and
deactivations, CPENV_ACTIVE_MODULES holds the path-separator-joined,
duplicate-free list of the real_names of the active modules sorted ascending
by real_name (not in activation order), and the variable is rewritten on
every activation and every deactivation. -/
theorem c5_active_var_rewritten : ∀ (ops : List ActiveOp) (op : ActiveOp),
    ((applyActiveOps initActive (ops ++ [op])).envVar
      = some (serializeActive (applyActiveOps initActive (ops ++ [op])).modules))
    ∧ List.Sorted realNameLe (applyActiveOps initActive (ops ++ [op])).modules
    ∧ ((applyActiveOps initActive (ops ++ [op])).modules.map Module.real_name).Nodup := by
  intro ops op
  have hinv := applyActiveOps_inv ops initActive initActive_inv.1 initActive_inv.2
  have hsplit : applyActiveOps initActive (ops ++ [op])
      = stepActive (applyActiveOps initActive ops) op := by
    simp [applyActiveOps, List.foldl_append]
  rw [hsplit]
  exact ⟨stepActive_envVar _ op,
    (stepActive_sorted_nodup _ hinv.1 hinv.2 op).1,
    (stepActive_sorted_nodup _ hinv.1 hinv.2 op).2⟩

/-- C6: after every call to add_active_module, CPENV_ACTIVE_MODULES equals
the serialization of the active-module registry, which is sorted ascending by
real_name and holds no duplicate entries. -/
theorem c6_serialized_sorted_registry : ∀ (ops : List ActiveOp) (m : Module),
    ((applyActiveOps initActive (ops ++ [ActiveOp.add m])).envVar
      = some (serializeActive
          (applyActiveOps initActive (ops ++ [ActiveOp.add m])).modules))
    ∧ List.Sorted realNameLe
        (applyActiveOps initActive (ops ++ [ActiveOp.add m])).modules
    ∧ ((applyActiveOps initActive (ops ++ [ActiveOp.add m])).modules.map
        Module.real_name).Nodup := by
  intro ops m
  have hinv := applyActiveOps_inv ops initActive initActive_inv.1 initActive_inv.2
  have hsplit : applyActiveOps initActive (ops ++ [ActiveOp.add m])
      = stepActive (applyActiveOps initActive ops) (ActiveOp.add m) := by
    simp [applyActiveOps, List.foldl_append]
  rw [hsplit]
  exact ⟨stepActive_envVar _ _,
    (stepActive_sorted_nodup _ hinv.1 hinv.2 (ActiveOp.add m)).1,
    (stepActive_sorted_nodup _ hinv.1 hinv.2 (ActiveOp.add m)).2⟩

/-! ## Claim theorems: the repository registry -/

/-- C7: set_home_path does write the normalized path to CPENV_HOME, but the
repository named home that get_repo returns (and that get_repos contains) is
left untouched at its old root: update_repo inserts the new LocalRepo at the
top level of the _registry dict instead of into the repos table, so the
default local repository does not follow the new home path. -/
theorem c7_home_repo_not_updated :
    dictGet (set_home_path initializedState "/new").env "CPENV_HOME" = some "/new"
    ∧ (get_repo (set_home_path initializedState "/new") "home").map Repo.path
        = some "/old/cpenv/modules"
    ∧ ¬ ((get_repo (set_home_path initializedState "/new") "home").map Repo.path
        = some (joinPath "/new" "modules"))
    ∧ get_repos (set_home_path initializedState "/new") = get_repos initializedState := by
  refine ⟨by decide, by decide, by decide, by decide⟩

theorem find?_name_append_first (pre : List Repo) (r : Repo) (post : List Repo)
    (name : String) (hr : r.name = name) (hpre : ∀ p ∈ pre, p.name ≠ name) :
    (pre ++ r :: post).find? (fun x => x.name == name) = some r := by
  induction pre with
  | nil =>
    simp only [List.nil_append]
    exact List.find?_cons_of_pos _ (by simp [hr])
  | cons p pre ih =>
    have hp : ¬ (p.name == name) = true := by
      simp only [beq_iff_eq]
      exact hpre p (List.mem_cons_self p pre)
    have hstep : List.find? (fun x => x.name == name) (p :: (pre ++ r :: post))
        = List.find? (fun x => x.name == name) (pre ++ r :: post) :=
      List.find?_cons_of_neg _ hp
    rw [List.cons_append, hstep]
    exact ih (fun q hq => hpre q (List.mem_cons_of_mem p hq))

/-- C10: get_repo on a name no registered repository bears returns none
rather than failing; when several registered repositories match, it returns
the first in registration order; and localize and publish called with an
unregistered repository name hand none to their destination-repository
variable. -/
theorem c10_get_repo_none_or_first :
    (∀ (st : ApiState) (name : String),
      (∀ r ∈ get_repos st, r.name ≠ name) → get_repo st name = none)
    ∧ (∀ (st : ApiState) (name : String) (pre : List Repo) (r : Repo)
        (post : List Repo),
      get_repos st = pre ++ r :: post → r.name = name →
      (∀ p ∈ pre, p.name ≠ name) → get_repo st name = some r)
    ∧ (∀ (st : ApiState) (name : String),
      (∀ r ∈ get_repos st, r.name ≠ name) →
      localize_to_repo st name = none ∧ publish_to_repo st name = none) := by
  have hnone : ∀ (st : ApiState) (name : String),
      (∀ r ∈ get_repos st, r.name ≠ name) → get_repo st name = none := by
    intro st name h
    rw [get_repo, List.find?_eq_none]
    intro x hx
    simp only [beq_iff_eq]
    exact h x hx
  refine ⟨hnone, ?_, ?_⟩
  · intro st name pre r post hsplit hr hpre
    rw [get_repo, hsplit]
    exact find?_name_append_first pre r post name hr hpre
  · intro st name h
    exact ⟨hnone st name h, hnone st name h⟩

/-- Witness for c10_get_repo_none_or_first at a concrete registry of two
repositories. -/
theorem c10_witness :
    get_repo twoRepoState "nope" = none
    ∧ get_repo twoRepoState "user" = some (LocalRepo "user" "/user/modules")
    ∧ localize_to_repo twoRepoState "nope" = none
    ∧ publish_to_repo twoRepoState "nope" = none := by
  refine ⟨c10_get_repo_none_or_first.1 twoRepoState "nope" (by decide),
    c10_get_repo_none_or_first.2.1 twoRepoState "user"
      [LocalRepo "home" "/home/modules"] (LocalRepo "user" "/user/modules") []
      (by decide) rfl (by decide),
    (c10_get_repo_none_or_first.2.2 twoRepoState "nope" (by decide)).1,
    (c10_get_repo_none_or_first.2.2 twoRepoState "nope" (by decide)).2⟩

/-! ## Claim theorems: CLI exit codes -/

/-- C8 counterexample: with the two listed repositories indexed 0 and 1, the
interactive reply -1 names no listed repository, yet prompt_for_repo does not
exit with status 1: the guard only rejects choices above the last index, so
-1 is used as a Python index and selects the last repository. -/
theorem c8_counterexample :
    ((-1 : Int) ∉ (List.range [repoHome, repoUser].length).map Int.ofNat)
    ∧ prompt_for_repo [repoHome, repoUser] "home" (PromptInput.num (-1))
        = PromptOutcome.chosen repoUser
    ∧ PromptOutcome.chosen repoUser ≠ PromptOutcome.exitOne := by
  refine ⟨by decide, by decide, by decide⟩

/-- C8 as amended: the activate command exits with status 1 on resolution
failure and 0 on success; prompt_for_repo terminates with status 1 on a
numeric choice greater than the last listed index and on a non-numeric
choice, but a negative choice between -len and -1 is not rejected and selects
a repository by Python wraparound indexing; the remove command exits with
status 1 when the deletion confirmation is declined. -/
theorem c8_exit_codes :
    (∀ (repos : List Repo) (reqs : List Requirement) (e : String),
      resolve repos reqs = Except.error e →
      activate_exit_code (resolve repos reqs) = 1)
    ∧ (∀ (repos : List Repo) (reqs : List Requirement) (ms : List ModuleSpec),
      resolve repos reqs = Except.ok ms →
      activate_exit_code (resolve repos reqs) = 0)
    ∧ (∀ (repos : List Repo) (dname : String) (d : Nat) (n : Int),
      lastIdxNamed repos dname = some d → (repos.length : Int) - 1 < n →
      prompt_for_repo repos dname (PromptInput.num n) = PromptOutcome.exitOne)
    ∧ (∀ (repos : List Repo) (dname : String),
      prompt_for_repo repos dname PromptInput.nonNumeric = PromptOutcome.exitOne)
    ∧ (∀ (repos : List Repo) (dname : String) (d : Nat) (n : Int),
      lastIdxNamed repos dname = some d →
      -(repos.length : Int) ≤ n → n ≤ -1 →
      ∃ r, prompt_for_repo repos dname (PromptInput.num n)
        = PromptOutcome.chosen r)
    ∧ (∀ s : String, strLower s ≠ "y" → strLower s ≠ "yes" → strLower s ≠ "yup" →
      remove_confirm s = ConfirmOutcome.exitOne) := by
  refine ⟨?_, ?_, ?_, ?_, ?_, ?_⟩
  · intro repos reqs e h
    rw [h]
    rfl
  · intro repos reqs ms h
    rw [h]
    rfl
  · intro repos dname d n hd hn
    rw [prompt_for_repo, hd]
    simp only [if_pos hn]
  · intro repos dname
    rw [prompt_for_repo]
    cases lastIdxNamed repos dname <;> rfl
  · intro repos dname d n hd hlow hhigh
    have hlen : 1 ≤ (repos.length : Int) := by omega
    have hguard : ¬ ((repos.length : Int) - 1 < n) := by omega
    have hidx0 : ¬ (0 ≤ n) := by omega
    have hidx1 : 0 ≤ n + (repos.length : Int) := by omega
    have hbound : (n + (repos.length : Int)).toNat < repos.length := by omega
    rw [prompt_for_repo, hd]
    simp only [if_neg hguard, pyIndex, if_neg hidx0, if_pos hidx1,
      List.get?_eq_get hbound]
    exact ⟨repos.get ⟨(n + (repos.length : Int)).toNat, hbound⟩, rfl⟩
  · intro s h1 h2 h3
    rw [remove_confirm]
    have b1 : (strLower s == "y") = false := by simp [h1]
    have b2 : (strLower s == "yes") = false := by simp [h2]
    have b3 : (strLower s == "yup") = false := by simp [h3]
    simp [b1, b2, b3]

/-- Witness for c8_exit_codes at concrete inputs. -/
theorem c8_witness :
    activate_exit_code (resolve [] [reqOf "x"]) = 1
    ∧ activate_exit_code (resolve [simpleRepo] [reqOf "moduleA"]) = 0
    ∧ prompt_for_repo [repoHome, repoUser] "home" (PromptInput.num 5)
        = PromptOutcome.exitOne
    ∧ prompt_for_repo [repoHome, repoUser] "home" PromptInput.nonNumeric
        = PromptOutcome.exitOne
    ∧ (∃ r, prompt_for_repo [repoHome, repoUser] "home" (PromptInput.num (-2))
        = PromptOutcome.chosen r)
    ∧ remove_confirm "n" = ConfirmOutcome.exitOne := by
  refine ⟨c8_exit_codes.1 [] [reqOf "x"] "Unable to resolve x" rfl,
    c8_exit_codes.2.1 [simpleRepo] [reqOf "moduleA"] [⟨"moduleA", 1, []⟩] rfl,
    c8_exit_codes.2.2.1 [repoHome, repoUser] "home" 0 5 (by decide) (by decide),
    c8_exit_codes.2.2.2.1 [repoHome, repoUser] "home",
    c8_exit_codes.2.2.2.2.1 [repoHome, repoUser] "home" 0 (-2) (by decide)
      (by decide) (by decide),
    c8_exit_codes.2.2.2.2.2 "n" (by decide) (by decide) (by decide)⟩

/-! ## Lemmas about ordered dictionaries -/

theorem find?_mapReplace {α : Type} (d : List (String × α)) (k : String)
    (v : α) (hany : d.any (fun x => x.1 == k) = true) :
    (d.map (fun kv => if kv.1 == k then (k, v) else kv)).find?
        (fun kv => kv.1 == k) = some (k, v) := by
  induction d with
  | nil => simp at hany
  | cons kv d ih =>
    rw [List.map_cons]
    by_cases h : (kv.1 == k) = true
    · rw [if_pos h]
      exact List.find?_cons_of_pos _ (by simp)
    · rw [if_neg h]
      have hstep : (kv :: d.map (fun kv => if kv.1 == k then (k, v) else kv)).find?
          (fun kv => kv.1 == k)
          = (d.map (fun kv => if kv.1 == k then (k, v) else kv)).find?
              (fun kv => kv.1 == k) := List.find?_cons_of_neg _ h
      rw [hstep]
      apply ih
      simp only [List.any_cons, Bool.or_eq_true] at hany
      rcases hany with h1 | h1
      · exact absurd h1 h
      · exact h1

theorem dictGet_dictSet_self {α : Type} (d : List (String × α)) (k : String)
    (v : α) : dictGet (dictSet d k v) k = some v := by
  by_cases hany : (d.any (fun x => x.1 == k)) = true
  · rw [dictSet, if_pos hany, dictGet, find?_mapReplace d k v hany]
    rfl
  · rw [dictSet, if_neg hany, dictGet]
    have hnone : d.find? (fun kv => kv.1 == k) = none := by
      rw [List.find?_eq_none]
      intro x hx hpx
      exact hany (List.any_eq_true.mpr ⟨x, hx, hpx⟩)
    rw [List.find?_append, hnone]
    have h1 : ([(k, v)].find? (fun kv : String × α => kv.1 == k)) = some (k, v) :=
      List.find?_cons_of_pos _ (by simp)
    simp [h1]

/-! ## Claim theorems: the environment merge -/

/-- C3: in the activator's merge, set replaces the accumulated value of a
variable unconditionally, prepend places the new value before the accumulated
value joined by the delta's separator, append places it after; and activating
a dependency M1 with PATH prepend /a followed by its dependent M2 with PATH
prepend /b over an original PATH yields /b + sep + /a + sep + original. -/
theorem c3_env_merge :
    (∀ (env : List (String × String)) (k v : String),
      envGet (applyDelta env (k, EnvOp.set v)) k = some v)
    ∧ (∀ (env : List (String × String)) (k v sep c : String),
      envGet env k = some c →
      envGet (applyDelta env (k, EnvOp.prepend v sep)) k = some (v ++ sep ++ c))
    ∧ (∀ (env : List (String × String)) (k v sep c : String),
      envGet env k = some c →
      envGet (applyDelta env (k, EnvOp.append v sep)) k = some (c ++ sep ++ v))
    ∧ (∀ (orig sep : String),
      envGet (mergeModuleEnvs [("PATH", orig)]
          [[("PATH", EnvOp.prepend "/a" sep)], [("PATH", EnvOp.prepend "/b" sep)]])
        "PATH" = some ("/b" ++ sep ++ "/a" ++ sep ++ orig)) := by
  refine ⟨?_, ?_, ?_, ?_⟩
  · intro env k v
    exact dictGet_dictSet_self env k v
  · intro env k v sep c h
    rw [applyDelta]
    have happ : applyOp (envGet env k) (EnvOp.prepend v sep) = v ++ sep ++ c := by
      rw [h]
      rfl
    rw [happ]
    exact dictGet_dictSet_self env k (v ++ sep ++ c)
  · intro env k v sep c h
    rw [applyDelta]
    have happ : applyOp (envGet env k) (EnvOp.append v sep) = c ++ sep ++ v := by
      rw [h]
      rfl
    rw [happ]
    exact dictGet_dictSet_self env k (c ++ sep ++ v)
  · intro orig sep
    have hcomp : mergeModuleEnvs [("PATH", orig)]
        [[("PATH", EnvOp.prepend "/a" sep)], [("PATH", EnvOp.prepend "/b" sep)]]
        = [("PATH", "/b" ++ sep ++ ("/a" ++ sep ++ orig))] := rfl
    rw [hcomp]
    have hget : envGet [("PATH", "/b" ++ sep ++ ("/a" ++ sep ++ orig))] "PATH"
        = some ("/b" ++ sep ++ ("/a" ++ sep ++ orig)) := rfl
    rw [hget]
    simp [String.append_assoc]

/-- Witness for c3_env_merge at a concrete environment. -/
theorem c3_witness :
    envGet (applyDelta [("PATH", "/orig")] ("PATH", EnvOp.prepend "/a" ":"))
        "PATH" = some ("/a" ++ ":" ++ "/orig")
    ∧ envGet (applyDelta [("PATH", "/orig")] ("PATH", EnvOp.append "/z" ":"))
        "PATH" = some ("/orig" ++ ":" ++ "/z") := by
  exact ⟨c3_env_merge.2.1 [("PATH", "/orig")] "PATH" "/a" ":" "/orig" rfl,
    c3_env_merge.2.2.1 [("PATH", "/orig")] "PATH" "/z" ":" "/orig" rfl⟩

/-! ## Claim theorems: create -/

/-- C9: when the destination directory already exists create fails with
OSError and changes nothing (no hook runs, no directory is made, no metadata
file is written); when it does not exist, create runs pre_create first,
creates directories, writes the metadata document whose fields are exactly
name, version, description, author, email, requires, environment in that
order, and runs post_create last. -/
theorem c9_create_gates_and_order :
    (∀ (st : CreateState) (w n v de au em : String) (req : List String)
        (env : List (String × String)),
      st.fs.dirs.contains (normpath w) = true →
      create st w n v de au em req env
        = (st, Except.error ("Module already exists at " ++ normpath w)))
    ∧ (∀ (st : CreateState) (w n v de au em : String) (req : List String)
        (env : List (String × String)),
      st.fs.dirs.contains (normpath w) = false →
      ∃ mk : List CreateEvent,
        ((create st w n v de au em req env).1.events
          = st.events ++ [CreateEvent.hook "pre_create"] ++ mk
              ++ [CreateEvent.wroteFile (joinPath (normpath w) "module.yml"),
                  CreateEvent.hook "post_create"])
        ∧ (∀ ev ∈ mk, ∃ p, ev = CreateEvent.madeDir p)
        ∧ (create st w n v de au em req env).2 = Except.ok ⟨normpath w, n, v⟩
        ∧ (dictGet (create st w n v de au em req env).1.fs.files
              (joinPath (normpath w) "module.yml")).map
            (fun doc => doc.map Prod.fst) = some configFieldOrder) := by
  constructor
  · intro st w n v de au em req env h
    have hmem : normpath w ∈ st.fs.dirs := by simpa using h
    simp [create, hmem]
  · intro st w n v de au em req env h
    have hmem : normpath w ∉ st.fs.dirs := by simpa using h
    by_cases h2 : ((st.fs.dirs ++ [normpath w]).contains
        (joinPath (normpath w) "hooks")) = true
    · have hmem2 : joinPath (normpath w) "hooks" ∈ st.fs.dirs ++ [normpath w] := by
        simpa using h2
      refine ⟨[CreateEvent.madeDir (normpath w)], ?_, ?_, ?_, ?_⟩
      · simp [create, hmem, runHook, ensureDir, writeFile, hmem2]
      · intro ev hev
        simp only [List.mem_singleton] at hev
        exact ⟨normpath w, hev⟩
      · simp [create, hmem]
      · simp [create, hmem, runHook, ensureDir, writeFile, hmem2,
          dictGet_dictSet_self, configFieldOrder]
    · have hmem2 : joinPath (normpath w) "hooks" ∉ st.fs.dirs ++ [normpath w] := by
        simpa using h2
      refine ⟨[CreateEvent.madeDir (normpath w),
        CreateEvent.madeDir (joinPath (normpath w) "hooks")], ?_, ?_, ?_, ?_⟩
      · simp [create, hmem, runHook, ensureDir, writeFile, hmem2]
      · intro ev hev
        simp only [List.mem_cons, List.not_mem_nil, or_false] at hev
        rcases hev with hev | hev
        · exact ⟨normpath w, hev⟩
        · exact ⟨joinPath (normpath w) "hooks", hev⟩
      · simp [create, hmem]
      · simp [create, hmem, runHook, ensureDir, writeFile, hmem2,
          dictGet_dictSet_self, configFieldOrder]

/-- Witness for c9_create_gates_and_order at concrete world states. -/
theorem c9_witness :
    create occupiedCreateState "/modules/a" "a" "1.0" "" "" "" [] []
      = (occupiedCreateState,
         Except.error ("Module already exists at " ++ normpath "/modules/a"))
    ∧ ∃ mk : List CreateEvent,
      ((create emptyCreateState "/modules/b" "b" "1.0" "" "" "" [] []).1.events
        = emptyCreateState.events ++ [CreateEvent.hook "pre_create"] ++ mk
            ++ [CreateEvent.wroteFile (joinPath (normpath "/modules/b") "module.yml"),
                CreateEvent.hook "post_create"])
      ∧ (∀ ev ∈ mk, ∃ p, ev = CreateEvent.madeDir p)
      ∧ (create emptyCreateState "/modules/b" "b" "1.0" "" "" "" [] []).2
          = Except.ok ⟨normpath "/modules/b", "b", "1.0"⟩
      ∧ (dictGet (create emptyCreateState "/modules/b" "b" "1.0" "" "" "" [] []).1.fs.files
            (joinPath (normpath "/modules/b") "module.yml")).map
          (fun doc => doc.map Prod.fst) = some configFieldOrder := by
  exact ⟨c9_create_gates_and_order.1 occupiedCreateState "/modules/a" "a" "1.0"
      "" "" "" [] [] rfl,
    c9_create_gates_and_order.2 emptyCreateState "/modules/b" "b" "1.0"
      "" "" "" [] [] rfl⟩

/-! ## Lemmas about the resolver -/

theorem mem_find_iff (r : Repo) (name : String) (c : Constraint)
    (m : ModuleSpec) :
    m ∈ r.find name c ↔
      m ∈ r.modules ∧ m.name = name ∧ satisfies m.version c = true := by
  rw [Repo.find, (List.perm_insertionSort versionGe _).mem_iff, List.mem_filter]
  simp [Bool.and_eq_true, beq_iff_eq, and_assoc]

theorem find_eq_nil_iff (r : Repo) (name : String) (c : Constraint) :
    r.find name c = [] ↔
      ∀ m ∈ r.modules, ¬(m.name = name ∧ satisfies m.version c = true) := by
  constructor
  · intro h m hm hprop
    have : m ∈ r.find name c :=
      (mem_find_iff r name c m).mpr ⟨hm, hprop.1, hprop.2⟩
    rw [h] at this
    exact List.not_mem_nil m this
  · intro h
    have hfilter : r.modules.filter
        (fun m => m.name == name && satisfies m.version c) = [] := by
      rw [List.filter_eq_nil]
      intro m hm
      simp only [Bool.and_eq_true, beq_iff_eq, not_and]
      intro h1 h2
      exact h m hm ⟨h1, h2⟩
    rw [Repo.find, hfilter]
    rfl

theorem find_head_best (r : Repo) (name : String) (c : Constraint)
    (m : ModuleSpec) (rest : List ModuleSpec)
    (h : r.find name c = m :: rest) :
    m ∈ r.modules ∧ m.name = name ∧ satisfies m.version c = true ∧
      ∀ m2 ∈ r.modules, m2.name = name → satisfies m2.version c = true →
        m2.version ≤ m.version := by
  have hm : m ∈ r.find name c := by rw [h]; exact List.mem_cons_self m rest
  obtain ⟨hmem, hname, hsat⟩ := (mem_find_iff r name c m).mp hm
  refine ⟨hmem, hname, hsat, ?_⟩
  intro m2 hm2 hname2 hsat2
  have hm2f : m2 ∈ r.find name c :=
    (mem_find_iff r name c m2).mpr ⟨hm2, hname2, hsat2⟩
  have hsorted : List.Sorted versionGe (r.find name c) :=
    List.sorted_insertionSort versionGe _
  rw [h] at hsorted hm2f
  rcases List.mem_cons.mp hm2f with heq | htail
  · rw [heq]
  · exact List.rel_of_sorted_cons hsorted m2 htail

theorem resolveOne_skip (pre rest : List Repo) (req : Requirement)
    (h : ∀ p ∈ pre, p.find req.name req.constraint = []) :
    resolveOne (pre ++ rest) req = resolveOne rest req := by
  induction pre with
  | nil => rfl
  | cons p pre ih =>
    rw [List.cons_append, resolveOne, h p (List.mem_cons_self p pre)]
    exact ih (fun q hq => h q (List.mem_cons_of_mem p hq))

theorem resolveOne_err (repos : List Repo) (req : Requirement)
    (h : ∀ r ∈ repos, r.find req.name req.constraint = []) :
    resolveOne repos req = Except.error ("Unable to resolve " ++ req.name) := by
  induction repos with
  | nil => rfl
  | cons r rest ih =>
    rw [resolveOne, h r (List.mem_cons_self r rest)]
    exact ih (fun q hq => h q (List.mem_cons_of_mem r hq))

theorem resolveOne_ok (repos : List Repo) (req : Requirement) (m : ModuleSpec)
    (h : resolveOne repos req = Except.ok m) :
    m.name = req.name ∧ satisfies m.version req.constraint = true := by
  induction repos with
  | nil => simp [resolveOne] at h
  | cons r rest ih =>
    rw [resolveOne] at h
    cases hf : r.find req.name req.constraint with
    | nil =>
      rw [hf] at h
      exact ih h
    | cons best tail =>
      rw [hf] at h
      have hbm : best = m := by
        simpa using h
      obtain ⟨_, hname, hsat, _⟩ :=
        find_head_best r req.name req.constraint best tail hf
      exact ⟨hbm ▸ hname, hbm ▸ hsat⟩

theorem depOrdered_nil : DepOrdered [] := by
  intro i m1 hi
  simp at hi

theorem depOrdered_append (l : List ModuleSpec) (m : ModuleSpec)
    (hl : DepOrdered l) (hm : ∀ d ∈ m.requires, ∃ x ∈ l, x.name = d.name) :
    DepOrdered (l ++ [m]) := by
  intro i m1 hi d hd
  rcases Nat.lt_trichotomy i l.length with hlt | heq | hgt
  · have hi2 : l.get? i = some m1 := by rw [← List.get?_append hlt]; exact hi
    obtain ⟨j, m2, hj, hjm, hname⟩ := hl i m1 hi2 d hd
    have hjlt : j < l.length := Nat.lt_trans hj hlt
    exact ⟨j, m2, hj, by rw [List.get?_append hjlt]; exact hjm, hname⟩
  · have hm1 : m1 = m := by
      rw [heq, List.get?_concat_length] at hi
      exact (Option.some.injEq _ _).mp hi.symm
    obtain ⟨x, hx, hxname⟩ := hm d (hm1 ▸ hd)
    obtain ⟨j, hj⟩ := List.get?_of_mem hx
    have hjlt : j < l.length := by
      by_contra hge
      rw [List.get?_eq_none.mpr (Nat.le_of_not_lt hge)] at hj
      exact Option.noConfusion hj
    refine ⟨j, x, heq ▸ hjlt, ?_, hxname⟩
    rw [List.get?_append hjlt]
    exact hj
  · exfalso
    have hlen : (l ++ [m]).length ≤ i := by
      rw [List.length_append, List.length_singleton]
      omega
    rw [List.get?_eq_none.mpr hlen] at hi
    exact Option.noConfusion hi

theorem resolveMany_ok_ext (repos : List Repo) :
    ∀ (fuel : Nat) (path : List String) (st : List ModuleSpec)
      (reqs : List Requirement) (st2 : List ModuleSpec),
    resolveMany repos fuel path st reqs = Except.ok st2 →
    ∃ ext, st2 = st ++ ext := by
  intro fuel
  induction fuel with
  | zero =>
    intro path st reqs st2 h
    cases reqs with
    | nil =>
      rw [resolveMany] at h
      exact ⟨[], by simpa using h.symm⟩
    | cons req rs => simp [resolveMany] at h
  | succ fuel ih =>
    intro path st reqs st2 h
    cases reqs with
    | nil =>
      rw [resolveMany] at h
      exact ⟨[], by simpa using h.symm⟩
    | cons req rs =>
      rw [resolveMany] at h
      by_cases hc : path.contains req.name = true
      · rw [if_pos hc] at h
        exact absurd h (by simp)
      · rw [if_neg hc] at h
        cases hf : st.find? (fun x => x.name == req.name) with
        | some m =>
          simp only [hf] at h
          by_cases hsat : satisfies m.version req.constraint = true
          · rw [if_pos hsat] at h
            exact ih _ _ _ _ h
          · rw [if_neg hsat] at h
            exact absurd h (by simp)
        | none =>
          simp only [hf] at h
          cases hro : resolveOne repos req with
          | error e =>
            simp only [hro] at h
            exact absurd h (by simp)
          | ok m =>
            simp only [hro] at h
            cases hrm : resolveMany repos fuel (req.name :: path) st m.requires with
            | error e =>
              simp only [hrm] at h
              exact absurd h (by simp)
            | ok stMid =>
              simp only [hrm] at h
              obtain ⟨e1, he1⟩ := ih _ _ _ _ hrm
              obtain ⟨e2, he2⟩ := ih _ _ _ _ h
              refine ⟨e1 ++ [m] ++ e2, ?_⟩
              rw [he2, he1]
              simp

theorem mem_of_resolveMany_ok (repos : List Repo) (fuel : Nat)
    (path : List String) (st : List ModuleSpec) (reqs : List Requirement)
    (st2 : List ModuleSpec) (x : ModuleSpec)
    (h : resolveMany repos fuel path st reqs = Except.ok st2) (hx : x ∈ st) :
    x ∈ st2 := by
  obtain ⟨ext, hext⟩ := resolveMany_ok_ext repos fuel path st reqs st2 h
  rw [hext]
  exact List.mem_append_left ext hx

theorem resolveMany_ok_inv (repos : List Repo) :
    ∀ (fuel : Nat) (path : List String) (st : List ModuleSpec)
      (reqs : List Requirement) (st2 : List ModuleSpec),
    resolveMany repos fuel path st reqs = Except.ok st2 → DepOrdered st →
    DepOrdered st2 ∧ ∀ req ∈ reqs, ∃ x ∈ st2, x.name = req.name := by
  intro fuel
  induction fuel with
  | zero =>
    intro path st reqs st2 h hdep
    cases reqs with
    | nil =>
      rw [resolveMany] at h
      have : st = st2 := by simpa using h
      exact ⟨this ▸ hdep, by simp⟩
    | cons req rs => simp [resolveMany] at h
  | succ fuel ih =>
    intro path st reqs st2 h hdep
    cases reqs with
    | nil =>
      rw [resolveMany] at h
      have : st = st2 := by simpa using h
      exact ⟨this ▸ hdep, by simp⟩
    | cons req rs =>
      rw [resolveMany] at h
      by_cases hc : path.contains req.name = true
      · rw [if_pos hc] at h
        exact absurd h (by simp)
      · rw [if_neg hc] at h
        cases hf : st.find? (fun x => x.name == req.name) with
        | some m =>
          simp only [hf] at h
          by_cases hsat : satisfies m.version req.constraint = true
          · rw [if_pos hsat] at h
            obtain ⟨hdep2, hnames⟩ := ih _ _ _ _ h hdep
            refine ⟨hdep2, ?_⟩
            intro q hq
            rcases List.mem_cons.mp hq with hq | hq
            · have hmst : m ∈ st := List.mem_of_find?_eq_some hf
              have hmname : m.name = req.name := by
                simpa using List.find?_some hf
              exact ⟨m, mem_of_resolveMany_ok repos fuel path st rs st2 m h hmst,
                hq ▸ hmname⟩
            · exact hnames q hq
          · rw [if_neg hsat] at h
            exact absurd h (by simp)
        | none =>
          simp only [hf] at h
          cases hro : resolveOne repos req with
          | error e =>
            simp only [hro] at h
            exact absurd h (by simp)
          | ok m =>
            simp only [hro] at h
            cases hrm : resolveMany repos fuel (req.name :: path) st m.requires with
            | error e =>
              simp only [hrm] at h
              exact absurd h (by simp)
            | ok stMid =>
              simp only [hrm] at h
              obtain ⟨hdepMid, hnamesMid⟩ := ih _ _ _ _ hrm hdep
              have hdepApp : DepOrdered (stMid ++ [m]) :=
                depOrdered_append stMid m hdepMid hnamesMid
              obtain ⟨hdep2, hnames⟩ := ih _ _ _ _ h hdepApp
              refine ⟨hdep2, ?_⟩
              intro q hq
              rcases List.mem_cons.mp hq with hq | hq
              · have hmapp : m ∈ stMid ++ [m] :=
                  List.mem_append_right stMid (List.mem_singleton_self m)
                have hmname : m.name = req.name :=
                  (resolveOne_ok repos req m hro).1
                exact ⟨m,
                  mem_of_resolveMany_ok repos fuel path (stMid ++ [m]) rs st2 m h hmapp,
                  hq ▸ hmname⟩
              · exact hnames q hq

/-! ## Claim theorems: the resolver -/

/-- C1: an unconstrained requirement resolves, in the first registered
repository containing any module of that name, to a spec of that name whose
version is maximal there; an exact requirement name==V resolves to the spec
of that name with version V in the first repository containing it; a spec
without requirements is exactly what resolve returns for such a requirement;
and when no registered repository contains a satisfying module, resolve fails
with a ResolveError naming the requirement. -/
theorem c1_resolve_selection :
    (∀ (pre : List Repo) (r : Repo) (post : List Repo) (name : String),
      (∀ p ∈ pre, ∀ m ∈ p.modules, m.name ≠ name) →
      (∃ m ∈ r.modules, m.name = name) →
      ∃ m, resolveOne (pre ++ r :: post) (reqOf name) = Except.ok m
        ∧ m ∈ r.modules ∧ m.name = name
        ∧ ∀ m2 ∈ r.modules, m2.name = name → m2.version ≤ m.version)
    ∧ (∀ (pre : List Repo) (r : Repo) (post : List Repo) (name : String) (v : Nat),
      (∀ p ∈ pre, ∀ m ∈ p.modules, ¬(m.name = name ∧ m.version = v)) →
      (∃ m ∈ r.modules, m.name = name ∧ m.version = v) →
      ∃ m, resolveOne (pre ++ r :: post) ⟨name, Constraint.exact v⟩ = Except.ok m
        ∧ m ∈ r.modules ∧ m.name = name ∧ m.version = v)
    ∧ (∀ (repos : List Repo) (req : Requirement) (m : ModuleSpec),
      resolveOne repos req = Except.ok m → m.requires = [] →
      resolve repos [req] = Except.ok [m])
    ∧ (∀ (repos : List Repo) (name : String) (c : Constraint),
      (∀ r ∈ repos, ∀ m ∈ r.modules,
        ¬(m.name = name ∧ satisfies m.version c = true)) →
      resolve repos [⟨name, c⟩] = Except.error ("Unable to resolve " ++ name)) := by
  refine ⟨?_, ?_, ?_, ?_⟩
  · intro pre r post name hpre hex
    have hskip : ∀ p ∈ pre, p.find (reqOf name).name (reqOf name).constraint = [] := by
      intro p hp
      rw [find_eq_nil_iff]
      intro m hm hprop
      exact hpre p hp m hm hprop.1
    rw [resolveOne_skip pre (r :: post) (reqOf name) hskip]
    cases hfind : r.find name Constraint.unconstrained with
    | nil =>
      exfalso
      obtain ⟨m, hm, hname⟩ := hex
      exact (find_eq_nil_iff r name Constraint.unconstrained).mp hfind m hm
        ⟨hname, rfl⟩
    | cons best tail =>
      obtain ⟨hmem, hname, _, hmax⟩ :=
        find_head_best r name Constraint.unconstrained best tail hfind
      refine ⟨best, ?_, hmem, hname, ?_⟩
      · rw [resolveOne]
        rw [show (reqOf name).name = name from rfl,
          show (reqOf name).constraint = Constraint.unconstrained from rfl,
          hfind]
      · intro m2 hm2 hname2
        exact hmax m2 hm2 hname2 rfl
  · intro pre r post name v hpre hex
    have hskip : ∀ p ∈ pre,
        p.find (Requirement.mk name (Constraint.exact v)).name
          (Requirement.mk name (Constraint.exact v)).constraint = [] := by
      intro p hp
      rw [find_eq_nil_iff]
      intro m hm hprop
      have hv : m.version = v := by simpa [satisfies] using hprop.2
      exact hpre p hp m hm ⟨hprop.1, hv⟩
    rw [resolveOne_skip pre (r :: post) _ hskip]
    cases hfind : r.find name (Constraint.exact v) with
    | nil =>
      exfalso
      obtain ⟨m, hm, hname, hv⟩ := hex
      exact (find_eq_nil_iff r name (Constraint.exact v)).mp hfind m hm
        ⟨hname, by simp [satisfies, hv]⟩
    | cons best tail =>
      obtain ⟨hmem, hname, hsat, _⟩ :=
        find_head_best r name (Constraint.exact v) best tail hfind
      refine ⟨best, ?_, hmem, hname, by simpa [satisfies] using hsat⟩
      rw [resolveOne]
      rw [show (Requirement.mk name (Constraint.exact v)).name = name from rfl,
        show (Requirement.mk name (Constraint.exact v)).constraint
          = Constraint.exact v from rfl, hfind]
  · intro repos req m h hreq
    rw [resolve, resolveMany]
    rw [if_neg (by simp)]
    have hfind : List.find? (fun x => x.name == req.name) ([] : List ModuleSpec)
        = none := rfl
    simp only [hfind, h, hreq, resolveMany]
    rfl
  · intro repos name c hnone
    have herr : resolveOne repos ⟨name, c⟩
        = Except.error ("Unable to resolve " ++ name) := by
      apply resolveOne_err
      intro r hr
      rw [find_eq_nil_iff]
      intro m hm hprop
      exact hnone r hr m hm hprop
    rw [resolve, resolveMany]
    rw [if_neg (by simp)]
    have hfind : List.find? (fun x => x.name == name) ([] : List ModuleSpec)
        = none := rfl
    simp only [hfind, herr]

/-- Witness for c1_resolve_selection: the highest version is selected from a
repository holding moduleA in versions 1 and 2, and resolution fails on an
empty repository list. -/
theorem c1_witness :
    (∃ m, resolveOne [twoVersionRepo] (reqOf "moduleA") = Except.ok m
      ∧ m ∈ twoVersionRepo.modules ∧ m.name = "moduleA"
      ∧ ∀ m2 ∈ twoVersionRepo.modules, m2.name = "moduleA" →
          m2.version ≤ m.version)
    ∧ (∃ m, resolveOne [twoVersionRepo] ⟨"moduleA", Constraint.exact 1⟩
        = Except.ok m ∧ m ∈ twoVersionRepo.modules ∧ m.name = "moduleA"
        ∧ m.version = 1)
    ∧ resolve [simpleRepo] [reqOf "moduleA"] = Except.ok [⟨"moduleA", 1, []⟩]
    ∧ resolve [] [⟨"moduleB", Constraint.unconstrained⟩]
        = Except.error ("Unable to resolve " ++ "moduleB") := by
  refine ⟨c1_resolve_selection.1 [] twoVersionRepo [] "moduleA" (by simp)
      ⟨⟨"moduleA", 1, []⟩, by decide, rfl⟩,
    c1_resolve_selection.2.1 [] twoVersionRepo [] "moduleA" 1 (by simp)
      ⟨⟨"moduleA", 1, []⟩, by decide, rfl, rfl⟩,
    c1_resolve_selection.2.2.1 [simpleRepo] (reqOf "moduleA") ⟨"moduleA", 1, []⟩
      rfl rfl,
    c1_resolve_selection.2.2.2 [] "moduleB" Constraint.unconstrained (by simp)⟩

/-- C2: every successful resolution is dependency-ordered: a spec that
declares a requirement appears strictly after a spec bearing that
requirement's name; and the two-module cycle A requires B, B requires A makes
resolve fail with a ResolveError instead of returning. -/
theorem c2_dependency_order :
    (∀ (repos : List Repo) (reqs : List Requirement) (out : List ModuleSpec),
      resolve repos reqs = Except.ok out → DepOrdered out)
    ∧ resolve [cycleRepo] [reqOf "A"] = Except.error "cycle detected: A" := by
  constructor
  · intro repos reqs out h
    exact (resolveMany_ok_inv repos _ _ _ _ _ h depOrdered_nil).1
  · rfl

/-- Witness for c2_dependency_order: the singleton resolution of moduleA is
dependency-ordered. -/
theorem c2_witness : DepOrdered [⟨"moduleA", 1, []⟩] :=
  c2_dependency_order.1 [simpleRepo] [reqOf "moduleA"] [⟨"moduleA", 1, []⟩] rfl

end Cpenv
